import Mathlib

/-!
Verification development for the ad-event generator and analytics aggregator
of the `ai-generalist` repository.

The generator is `simulate_ad_events` in `youtube-agent.py` (lines 53-97).
The Python code draws from the global `random` module and reads the wall
clock with `datetime.now()`.  We embed both effects as explicit streams:

* `rng : ℕ → ℚ` — the `k`-th value produced by the random source.
  `random.choice` on a two-element list is a uniform binary selection
  driven by the next draw (first element iff the draw is below 1/2);
  `random.random()` returns the next draw itself, a value in `[0, 1)`.
* `clock : ℕ → ℚ` — the wall-clock time, in seconds since the epoch,
  observed by the `k`-th call to `datetime.now()` during one generation
  call.  `datetime.now().timestamp() * 1000` is `clock k * 1000`;
  `(datetime.now() + timedelta(seconds=x)).timestamp() * 1000` is
  `(clock k + x) * 1000`.

Durations and video offsets are Python ints, embedded as `ℤ`; computed
timestamps are embedded as `ℚ`.
-/

inductive AdType where
  | nonSkippable
  | skippable
  | bumper
  | display
  deriving DecidableEq, Repr

inductive AdPosition where
  | preRoll
  | midRoll
  | postRoll
  deriving DecidableEq, Repr

structure AdEvent where
  video_id : String
  ad_type : AdType
  ad_position : AdPosition
  duration : ℤ
  video_time : ℤ
  startTime : ℚ
  deriving DecidableEq, Repr

/-- Model of `random.choice([a, b])`: a uniform binary selection driven by one draw,
taking the first element iff the draw lies in the lower half of `[0, 1)`.
(`mkRat 1 2` is the rational 1/2.) -/
def choice2 {α : Type} (a b : α) (q : ℚ) : α :=
  if q < mkRat 1 2 then a else b

/-- Source lines 61-68: the guaranteed pre-roll ad.  Consumes draw 0
(`random.choice([15, 30])`) and clock reading 0. -/
def preRollEvent (video_id : String) (rng clock : ℕ → ℚ) : AdEvent :=
  { video_id := video_id
    ad_type := AdType.nonSkippable
    ad_position := AdPosition.preRoll
    duration := choice2 15 30 (rng 0)
    video_time := 0
    startTime := clock 0 * 1000 }

/-- Source lines 75-84: the body of the mid-roll loop at loop index
`i = k + 1`.  The `k`-th mid-roll consumes draws `1 + 2k`
(`random.choice(['skippable', 'bumper'])`) and `2 + 2k`
(`random.choice([6, 30])`) and clock reading `1 + k`. -/
def midRollEvent (video_id : String) (video_duration : ℤ) (rng clock : ℕ → ℚ)
    (k : ℕ) : AdEvent :=
  { video_id := video_id
    ad_type := choice2 AdType.skippable AdType.bumper (rng (1 + 2 * k))
    ad_position := AdPosition.midRoll
    duration := choice2 6 30 (rng (2 + 2 * k))
    video_time := min (((k : ℤ) + 1) * 600) (video_duration - 60)
    startTime := (clock (1 + k) + ((min (((k : ℤ) + 1) * 600) (video_duration - 60) : ℤ) + 5)) * 1000 }

/-- Source lines 72-84: mid-roll ads are generated only when
`video_duration > 600`, one for each `i` in `range(1, video_duration // 600 + 1)`. -/
def midRollEvents (video_id : String) (video_duration : ℤ) (rng clock : ℕ → ℚ) :
    List AdEvent :=
  if 600 < video_duration then
    (List.range (video_duration / 600).toNat).map (midRollEvent video_id video_duration rng clock)
  else []

/-- Source lines 88-95: the post-roll ad, emitted when `random.random() < 0.2`.
`count` is the number of mid-rolls already generated; the probability draw is
draw `1 + 2 * count` and the event's clock reading is `1 + count`. -/
def postRollEvent (video_id : String) (video_duration : ℤ) (clock : ℕ → ℚ)
    (count : ℕ) : AdEvent :=
  { video_id := video_id
    ad_type := AdType.display
    ad_position := AdPosition.postRoll
    duration := 5
    video_time := video_duration
    startTime := (clock (1 + count) + ((video_duration : ℤ) + 10)) * 1000 }

/-- Source line 87: the `random.random() < 0.2` guard around the post-roll.
(`mkRat 1 5` is the rational 0.2.) -/
def postRollEvents (video_id : String) (video_duration : ℤ) (rng clock : ℕ → ℚ)
    (count : ℕ) : List AdEvent :=
  if rng (1 + 2 * count) < mkRat 1 5 then [postRollEvent video_id video_duration clock count]
  else []

/-- Definition `simulate_ad_events` from `youtube-agent.py` lines 53-97: one pre-roll,
then the mid-rolls, then possibly one post-roll, in list order. -/
def simulate_ad_events (video_id : String) (video_duration : ℤ)
    (rng clock : ℕ → ℚ) : List AdEvent :=
  preRollEvent video_id rng clock ::
    (midRollEvents video_id video_duration rng clock ++
      postRollEvents video_id video_duration rng clock
        (midRollEvents video_id video_duration rng clock).length)

example :
    (simulate_ad_events "v" 300 (fun _ => 0) (fun _ => 0)).length = 2 := by decide

example :
    ((simulate_ad_events "v" 1500 (fun _ => 1) (fun _ => 0)).map
      (fun e => e.video_time)) = [0, 600, 1200] := by decide

/-!
The aggregator is `YouTubeAdAnalyzer.generate_summary_report` in
`ads-agent.py` (lines 45-108), operating on the DataFrame built by
`create_dataframe` (lines 27-43): one row per loaded ad event, with columns
`video_id`, `ad_type`, `position`, `duration`, `video_time` (plus a
`timestamp` column used only by the temporal section, which no claim
touches).  A row is embedded as `AdRecord`; `ad_type` and `position` are
arbitrary strings because the loader defaults missing fields to the string
"unknown".  Float statistics are embedded as `ℚ`.
-/

structure AdRecord where
  video_id : String
  ad_type : String
  ad_position : String
  duration : ℚ
  video_time : ℚ
  deriving DecidableEq, Repr

/-- Model of `pandas.Series.value_counts` on a column: each distinct value paired with
the number of rows carrying it.  (`value_counts` presents the pairs in
descending-count order; the report's per-value lines consume exactly these
pairs.) -/
def valueCounts (l : List String) : List (String × ℕ) :=
  l.dedup.map (fun v => (v, l.count v))

/-- Model of `pandas.Series.min` on a nonempty column.  The `[]` case is unreachable:
the report is only built after the empty-DataFrame guard. -/
def listMin : List ℚ → ℚ
  | [] => 0
  | x :: xs => xs.foldl min x

/-- Model of `pandas.Series.max` on a nonempty column; `[]` unreachable as in `listMin`. -/
def listMax : List ℚ → ℚ
  | [] => 0
  | x :: xs => xs.foldl max x

/-- Model of `pandas.Series.median`: sort the values; for odd length take the central
value, for even length average the two central values. -/
def median (l : List ℚ) : ℚ :=
  if l.length % 2 = 1 then (l.insertionSort (· ≤ ·)).getD (l.length / 2) 0
  else ((l.insertionSort (· ≤ ·)).getD (l.length / 2 - 1) 0 +
    (l.insertionSort (· ≤ ·)).getD (l.length / 2) 0) / 2

/-- The structured content of the summary report built by
`generate_summary_report` (ads-agent.py lines 50-108), excluding the
temporal section (no claim concerns it).  Each per-value entry of the two
distribution sections is `(value, count, count / total * 100)`; each
per-video entry is `(video_id, count, mean duration, total duration)`.
The source renders percentages with `:.1f` and rounds the per-video stats
with `.round(1)` for presentation; the report stores the full-precision
values. -/
structure Report where
  total_ads : ℕ
  unique_videos : ℕ
  avg_duration : ℚ
  ad_type_dist : List (String × ℕ × ℚ)
  position_dist : List (String × ℕ × ℚ)
  min_duration : ℚ
  max_duration : ℚ
  median_duration : ℚ
  per_video : Option (List (String × ℕ × ℚ × ℚ))
  deriving DecidableEq, Repr

inductive AggError where
  | EmptyCorpus
  deriving DecidableEq, Repr

/-- The report computation of `generate_summary_report` for a nonempty
DataFrame (ads-agent.py lines 50-108).

* lines 56-58: `total_ads`, `unique_videos` (`nunique`), `avg_duration`;
* lines 64-69 and 72-76: `value_counts` per `ad_type` / `position`, each
  with `percentage = (count / total_ads) * 100`;
* lines 79-82: min, max and median of `duration`;
* lines 85-95: only when `unique_videos > 1`, a per-video section from
  `groupby('video_id').agg(count, mean, sum)`; `groupby` sorts the group
  keys ascending, and `video_stats.index[:5]` takes the first five of those
  sorted keys.  The key order is lexicographic on the identifier strings,
  written here on the underlying character lists (`a.data ≤ b.data`, which
  is the string order `a ≤ b` by `String.le_iff_toList_le`). -/
def buildReport (df : List AdRecord) : Report :=
  let total_ads := df.length
  let durations := df.map (fun e => e.duration)
  let unique_videos := (df.map (fun e => e.video_id)).dedup.length
  { total_ads := total_ads
    unique_videos := unique_videos
    avg_duration := durations.sum / total_ads
    ad_type_dist := (valueCounts (df.map (fun e => e.ad_type))).map
      (fun p => (p.1, p.2, (p.2 : ℚ) / total_ads * 100))
    position_dist := (valueCounts (df.map (fun e => e.ad_position))).map
      (fun p => (p.1, p.2, (p.2 : ℚ) / total_ads * 100))
    min_duration := listMin durations
    max_duration := listMax durations
    median_duration := median durations
    per_video :=
      if 1 < unique_videos then
        some ((((df.map (fun e => e.video_id)).dedup.insertionSort
            (fun a b => a.data ≤ b.data)).take 5).map
          (fun v =>
            let evs := (df.filter (fun e => e.video_id == v)).map (fun e => e.duration)
            (v, evs.length, evs.sum / evs.length, evs.sum)))
      else none }

/-- Definition `generate_summary_report` (ads-agent.py lines 45-108): on an empty
DataFrame (line 47) the source returns the distinguished no-data sentinel
`"No data available for analysis"` instead of a report; we model that
outcome as the typed condition `EmptyCorpus`.  Otherwise the report is
computed as in `buildReport`. -/
def generate_summary_report (df : List AdRecord) : Except AggError Report :=
  if df.isEmpty then Except.error AggError.EmptyCorpus
  else Except.ok (buildReport df)

/-! ### Generator structure lemmas (shared helpers) -/

theorem midRollEvents_of_le {video_id : String} {video_duration : ℤ}
    {rng clock : ℕ → ℚ} (h : video_duration ≤ 600) :
    midRollEvents video_id video_duration rng clock = [] := by
  unfold midRollEvents
  rw [if_neg (not_lt.mpr h)]

theorem midRollEvents_of_lt {video_id : String} {video_duration : ℤ}
    {rng clock : ℕ → ℚ} (h : 600 < video_duration) :
    midRollEvents video_id video_duration rng clock =
      (List.range (video_duration / 600).toNat).map
        (midRollEvent video_id video_duration rng clock) := by
  unfold midRollEvents
  rw [if_pos h]

theorem mem_postRollEvents {video_id : String} {video_duration : ℤ}
    {rng clock : ℕ → ℚ} {count : ℕ} {e : AdEvent}
    (h : e ∈ postRollEvents video_id video_duration rng clock count) :
    e = postRollEvent video_id video_duration clock count := by
  unfold postRollEvents at h
  by_cases hq : rng (1 + 2 * count) < mkRat 1 5
  · rw [if_pos hq] at h
    simpa using h
  · rw [if_neg hq] at h
    simp at h

theorem ad_position_of_mem {video_id : String} {video_duration : ℤ}
    {rng clock : ℕ → ℚ} {e : AdEvent}
    (h : e ∈ simulate_ad_events video_id video_duration rng clock) :
    (e = preRollEvent video_id rng clock ∧ e.ad_position = AdPosition.preRoll) ∨
    (e ∈ midRollEvents video_id video_duration rng clock ∧
      e.ad_position = AdPosition.midRoll) ∨
    (e = postRollEvent video_id video_duration clock
        (midRollEvents video_id video_duration rng clock).length ∧
      e.ad_position = AdPosition.postRoll) := by
  unfold simulate_ad_events at h
  rcases List.mem_cons.mp h with he | he
  · exact Or.inl ⟨he, by rw [he]; rfl⟩
  · rcases List.mem_append.mp he with hm | hp
    · refine Or.inr (Or.inl ⟨hm, ?_⟩)
      by_cases hd : 600 < video_duration
      · rcases List.mem_map.mp ((midRollEvents_of_lt hd) ▸ hm) with ⟨k, _, hk⟩
        rw [← hk]; rfl
      · rw [midRollEvents_of_le (not_lt.mp hd)] at hm
        simp at hm
    · have := mem_postRollEvents hp
      exact Or.inr (Or.inr ⟨this, by rw [this]; rfl⟩)

/-! ### Claim theorems about the generator -/

/-- Claim C1 (code_bug evidence).  The generator's output is not determined by
the random source alone: each event's `startTime` reads the wall clock via
`datetime.now()` (and the draws come from the unseeded global `random`
module), so two calls with identical draw sequences but made at different
instants return different sequences.  Here the same `rng` with clock
readings 0 s and 1 s yields outputs differing in the pre-roll's
`startTime` (0 ms vs 1000 ms), refuting byte-identical repeatability. -/
theorem simulate_ad_events_depends_on_clock :
    simulate_ad_events "v" 0 (fun _ => 1) (fun _ => 0)
      ≠ simulate_ad_events "v" 0 (fun _ => 1) (fun _ => 1) := by
  intro h
  have h0 := congrArg
    (fun l => (l.head? ).map (fun e => e.startTime)) h
  simp only [simulate_ad_events, List.head?_cons, Option.map_some, preRollEvent,
    Option.some.injEq] at h0
  norm_num at h0

/-- Claim C2 (counterexample).  For `video_duration = 300 ≤ 600` the generator
does not always produce exactly one event: when the post-roll draw is below
0.2 (here the draw is 0) it emits a pre-roll *and* a post-roll, two events. -/
theorem short_video_emits_post_roll :
    (simulate_ad_events "v" 300 (fun _ => 0) (fun _ => 0)).length = 2 ∧
    ((simulate_ad_events "v" 300 (fun _ => 0) (fun _ => 0)).map
      (fun e => e.ad_position)) = [AdPosition.preRoll, AdPosition.postRoll] :=
  ⟨by decide, by decide⟩

/-- Claim C2 (amended).  For every `video_duration ≤ 600` the generator emits
the pre-roll, no mid-roll, and — exactly when the post-roll draw is below
0.2 — one post-roll; so between one and two events, the first being the
pre-roll. -/
theorem short_video_pre_roll_only (video_id : String) (video_duration : ℤ)
    (rng clock : ℕ → ℚ) (h : video_duration ≤ 600) :
    simulate_ad_events video_id video_duration rng clock =
      preRollEvent video_id rng clock ::
        postRollEvents video_id video_duration rng clock 0 ∧
    (∀ e ∈ simulate_ad_events video_id video_duration rng clock,
      e.ad_position ≠ AdPosition.midRoll) := by
  have hm := @midRollEvents_of_le video_id video_duration rng clock h
  constructor
  · unfold simulate_ad_events
    rw [hm]
    rfl
  · intro e he
    rcases ad_position_of_mem he with ⟨_, hp⟩ | ⟨hmem, _⟩ | ⟨_, hp⟩
    · rw [hp]; intro hc; exact AdPosition.noConfusion hc
    · rw [hm] at hmem; simp at hmem
    · rw [hp]; intro hc; exact AdPosition.noConfusion hc

/-- Claim C2 witness: the amended statement at `video_duration = 600` with a
draw sequence whose post-roll draw (1) is not below 0.2, so the output is
the pre-roll alone. -/
theorem short_video_pre_roll_only_witness :
    simulate_ad_events "v" 600 (fun _ => 1) (fun _ => 0) =
      preRollEvent "v" (fun _ => 1) (fun _ => 0) ::
        postRollEvents "v" 600 (fun _ => 1) (fun _ => 0) 0 ∧
    (∀ e ∈ simulate_ad_events "v" 600 (fun _ => 1) (fun _ => 0),
      e.ad_position ≠ AdPosition.midRoll) :=
  short_video_pre_roll_only "v" 600 (fun _ => 1) (fun _ => 0) (by decide)

/-- Claim C5 (code_bug evidence).  `simulate_ad_events` performs no input
validation: called with an empty `video_id` and the negative duration −5 it
raises nothing and returns an event sequence (the guaranteed pre-roll;
the post-roll draw 1 here suppresses the post-roll), instead of failing
with `InvalidVideoId` / `InvalidDuration`. -/
theorem simulate_ad_events_no_validation :
    (simulate_ad_events "" (-5) (fun _ => 1) (fun _ => 0)).length = 1 ∧
    (simulate_ad_events "" (-5) (fun _ => 1) (fun _ => 0)).head?
      = some (preRollEvent "" (fun _ => 1) (fun _ => 0)) :=
  ⟨by decide, rfl⟩

theorem filter_midRoll (video_id : String) (video_duration : ℤ)
    (rng clock : ℕ → ℚ) :
    (simulate_ad_events video_id video_duration rng clock).filter
        (fun e => decide (e.ad_position = AdPosition.midRoll))
      = midRollEvents video_id video_duration rng clock := by
  unfold simulate_ad_events
  rw [List.filter_cons, List.filter_append]
  have hpre : decide ((preRollEvent video_id rng clock).ad_position
      = AdPosition.midRoll) = false := rfl
  rw [hpre]
  have hmid : (midRollEvents video_id video_duration rng clock).filter
      (fun e => decide (e.ad_position = AdPosition.midRoll))
        = midRollEvents video_id video_duration rng clock := by
    refine List.filter_eq_self.mpr ?_
    intro e he
    by_cases hd : 600 < video_duration
    · rcases List.mem_map.mp ((midRollEvents_of_lt hd) ▸ he) with ⟨k, _, hk⟩
      rw [← hk]
      rfl
    · rw [midRollEvents_of_le (not_lt.mp hd)] at he
      simp at he
  have hpost : (postRollEvents video_id video_duration rng clock
      (midRollEvents video_id video_duration rng clock).length).filter
        (fun e => decide (e.ad_position = AdPosition.midRoll)) = [] := by
    refine List.filter_eq_nil_iff.mpr ?_
    intro e he
    rw [mem_postRollEvents he]
    simp [postRollEvent]
  rw [hmid, hpost]
  simp

/-- Claim C3 (confirmed).  For `video_duration > 600` the generated mid-rolls
are exactly `floor(video_duration / 600)` many, the `(k+1)`-st placed at
`min((k+1) * 600, video_duration - 60)`, so every mid-roll offset is at most
`video_duration - 60`. -/
theorem mid_roll_schedule (video_id : String) (video_duration : ℤ)
    (rng clock : ℕ → ℚ) (h : 600 < video_duration) :
    ((simulate_ad_events video_id video_duration rng clock).filter
        (fun e => decide (e.ad_position = AdPosition.midRoll))).map
          (fun e => e.video_time)
      = (List.range (video_duration / 600).toNat).map
          (fun (k : ℕ) => min (((k : ℤ) + 1) * 600) (video_duration - 60)) ∧
    ((simulate_ad_events video_id video_duration rng clock).filter
        (fun e => decide (e.ad_position = AdPosition.midRoll))).length
      = (video_duration / 600).toNat ∧
    ∀ e ∈ (simulate_ad_events video_id video_duration rng clock).filter
        (fun e => decide (e.ad_position = AdPosition.midRoll)),
      e.video_time ≤ video_duration - 60 := by
  rw [filter_midRoll, midRollEvents_of_lt h]
  refine ⟨?_, ?_, ?_⟩
  · rw [List.map_map]
    rfl
  · rw [List.length_map, List.length_range]
  · intro e he
    rcases List.mem_map.mp he with ⟨k, _, hk⟩
    rw [← hk]
    exact min_le_right _ _

/-- Claim C3 witness: `generate("v1", 1500, ...)` yields exactly two mid-rolls,
at offsets 600 and 1200 (`min(600, 1440)` and `min(1200, 1440)`). -/
theorem mid_roll_schedule_witness :
    ((simulate_ad_events "v1" 1500 (fun _ => 0) (fun _ => 0)).filter
        (fun e => decide (e.ad_position = AdPosition.midRoll))).map
          (fun e => e.video_time) = [600, 1200] ∧
    ((simulate_ad_events "v1" 1500 (fun _ => 0) (fun _ => 0)).filter
        (fun e => decide (e.ad_position = AdPosition.midRoll))).length = 2 := by
  have h := mid_roll_schedule "v1" 1500 (fun _ => 0) (fun _ => 0) (by decide)
  exact ⟨h.1.trans (by decide), h.2.1.trans (by decide)⟩

theorem mid_roll_video_time_bounds {video_id : String} {video_duration : ℤ}
    {rng clock : ℕ → ℚ} {e : AdEvent}
    (he : e ∈ midRollEvents video_id video_duration rng clock) :
    0 ≤ e.video_time ∧ e.video_time ≤ video_duration - 60 := by
  by_cases hd : 600 < video_duration
  · rcases List.mem_map.mp ((midRollEvents_of_lt hd) ▸ he) with ⟨k, _, hk⟩
    subst hk
    refine ⟨le_min ?_ (by omega), min_le_right _ _⟩
    positivity
  · rw [midRollEvents_of_le (not_lt.mp hd)] at he
    simp at he

theorem sorted_midRoll_times (video_id : String) (video_duration : ℤ)
    (rng clock : ℕ → ℚ) :
    List.Sorted (· ≤ ·)
      ((midRollEvents video_id video_duration rng clock).map
        (fun e => e.video_time)) := by
  by_cases hd : 600 < video_duration
  · rw [midRollEvents_of_lt hd, List.map_map]
    refine List.Pairwise.map _ ?_ (List.pairwise_lt_range _)
    intro a b hab
    show min (((a : ℤ) + 1) * 600) _ ≤ min (((b : ℤ) + 1) * 600) _
    exact min_le_min (by omega) le_rfl
  · rw [midRollEvents_of_le (not_lt.mp hd)]
    exact List.sorted_nil

/-- Claim C7 (counterexample).  For the negative duration −5 (which the source
accepts, see C5) a triggered post-roll is stamped at `video_time = -5`,
*after* the pre-roll at 0: the output sequence `[0, -5]` of video-time
offsets is not non-decreasing. -/
theorem negative_duration_breaks_order :
    ((simulate_ad_events "v" (-5) (fun _ => 0) (fun _ => 0)).map
      (fun e => e.video_time)) = [0, -5] ∧
    ¬ List.Sorted (· ≤ ·)
      ((simulate_ad_events "v" (-5) (fun _ => 0) (fun _ => 0)).map
        (fun e => e.video_time)) :=
  ⟨by decide, by decide⟩

/-- Claim C7 (amended).  For every `video_duration ≥ 0` the generated sequence
is ordered by non-decreasing `video_time`, and a pre-roll event always has
`video_time = 0` and is the first element. -/
theorem event_order (video_id : String) (video_duration : ℤ)
    (rng clock : ℕ → ℚ) (h : 0 ≤ video_duration) :
    List.Sorted (· ≤ ·)
      ((simulate_ad_events video_id video_duration rng clock).map
        (fun e => e.video_time)) ∧
    ∀ e ∈ simulate_ad_events video_id video_duration rng clock,
      e.ad_position = AdPosition.preRoll →
        e.video_time = 0 ∧
        (simulate_ad_events video_id video_duration rng clock).head? = some e := by
  constructor
  · unfold simulate_ad_events
    rw [List.map_cons, List.map_append, List.sorted_cons]
    constructor
    · intro b hb
      show (0 : ℤ) ≤ b
      rcases List.mem_append.mp hb with hm | hp
      · rcases List.mem_map.mp hm with ⟨e, he, hk⟩
        exact hk ▸ (mid_roll_video_time_bounds he).1
      · rcases List.mem_map.mp hp with ⟨e, he, hk⟩
        rw [← hk, mem_postRollEvents he]
        exact h
    · refine List.pairwise_append.mpr
        ⟨sorted_midRoll_times video_id video_duration rng clock, ?_, ?_⟩
      · unfold postRollEvents
        by_cases hq : rng (1 + 2 * (midRollEvents video_id video_duration
            rng clock).length) < mkRat 1 5
        · rw [if_pos hq]
          exact List.sorted_singleton _
        · rw [if_neg hq]
          exact List.sorted_nil
      · intro a ha b hb
        rcases List.mem_map.mp ha with ⟨e, he, hk⟩
        rcases List.mem_map.mp hb with ⟨f, hf, hl⟩
        rw [← hk, ← hl, mem_postRollEvents hf]
        have := (mid_roll_video_time_bounds he).2
        show e.video_time ≤ video_duration
        omega
  · intro e he hpos
    rcases ad_position_of_mem he with ⟨hpre, _⟩ | ⟨_, hmid⟩ | ⟨_, hpost⟩
    · subst hpre
      exact ⟨rfl, rfl⟩
    · rw [hpos] at hmid
      exact absurd hmid (by intro hc; exact AdPosition.noConfusion hc)
    · rw [hpos] at hpost
      exact absurd hpost (by intro hc; exact AdPosition.noConfusion hc)

/-- Claim C7 witness: the amended statement at duration 1500 with a draw
sequence that triggers the post-roll, so all three positions appear. -/
theorem event_order_witness :
    List.Sorted (· ≤ ·)
      ((simulate_ad_events "v1" 1500 (fun _ => 0) (fun _ => 0)).map
        (fun e => e.video_time)) ∧
    ∀ e ∈ simulate_ad_events "v1" 1500 (fun _ => 0) (fun _ => 0),
      e.ad_position = AdPosition.preRoll →
        e.video_time = 0 ∧
        (simulate_ad_events "v1" 1500 (fun _ => 0) (fun _ => 0)).head? = some e :=
  event_order "v1" 1500 (fun _ => 0) (fun _ => 0) (by decide)

example :
    generate_summary_report [] = Except.error AggError.EmptyCorpus := rfl

/-! ### Aggregator helpers -/

instance : IsTrans String (fun a b => a.data ≤ b.data) :=
  ⟨fun _ _ _ h1 h2 => le_trans h1 h2⟩

instance : IsTotal String (fun a b => a.data ≤ b.data) :=
  ⟨fun a b => le_total a.data b.data⟩

theorem dedup_length_le_one {α : Type} [DecidableEq α] {l : List α} {v : α}
    (h : ∀ x ∈ l, x = v) : l.dedup.length ≤ 1 := by
  rcases hd : l.dedup with _ | ⟨a, _ | ⟨b, t⟩⟩
  · simp
  · simp
  · exfalso
    have hnd := List.nodup_dedup l
    rw [hd] at hnd
    have ha : a ∈ l := List.mem_dedup.mp (hd ▸ List.mem_cons_self a (b :: t))
    have hb : b ∈ l :=
      List.mem_dedup.mp (hd ▸ List.mem_cons.mpr (Or.inr (List.mem_cons_self b t)))
    have hab : a ≠ b := by
      intro hc
      rw [hc] at hnd
      exact (List.nodup_cons.mp hnd).1 (List.mem_cons_self b t)
    exact hab ((h a ha).trans (h b hb).symm)

theorem buildReport_total_ads (df : List AdRecord) :
    (buildReport df).total_ads = df.length := rfl

theorem buildReport_per_video_some {df : List AdRecord}
    (h : 1 < (df.map (fun e => e.video_id)).dedup.length) :
    (buildReport df).per_video =
      some ((((df.map (fun e => e.video_id)).dedup.insertionSort
          (fun a b => a.data ≤ b.data)).take 5).map
        (fun v =>
          let evs := (df.filter (fun e => e.video_id == v)).map (fun e => e.duration)
          (v, evs.length, evs.sum / evs.length, evs.sum))) := by
  unfold buildReport
  simp only [if_pos h]

theorem buildReport_per_video_none {df : List AdRecord}
    (h : ¬ 1 < (df.map (fun e => e.video_id)).dedup.length) :
    (buildReport df).per_video = none := by
  unfold buildReport
  simp only [if_neg h]

theorem ok_report_eq {df : List AdRecord} {r : Report}
    (h : generate_summary_report df = Except.ok r) : r = buildReport df := by
  unfold generate_summary_report at h
  split at h
  · exact absurd h (by simp)
  · simpa using h.symm

/-! ### Claim theorems about the aggregator -/

/-- Claim C4 (confirmed).  On the empty corpus the aggregation returns the
distinguished no-data condition (modelled as `EmptyCorpus`; the source
returns the sentinel `"No data available for analysis"` instead of a
report), so it never produces an all-zero report.  On every nonempty corpus
a report is produced whose `total_ads` — the divisor of `avg_duration` and
of every percentage — is positive, and every per-video entry's count — the
divisor of that entry's mean — is positive, so no division by zero is ever
performed. -/
theorem aggregate_empty_corpus (df : List AdRecord) (h : df ≠ []) :
    generate_summary_report [] = Except.error AggError.EmptyCorpus ∧
    generate_summary_report df = Except.ok (buildReport df) ∧
    0 < (buildReport df).total_ads ∧
    ∀ l, (buildReport df).per_video = some l → ∀ p ∈ l, 0 < p.2.1 := by
  refine ⟨rfl, ?_, ?_, ?_⟩
  · unfold generate_summary_report
    rw [if_neg (by simpa using h)]
  · rw [buildReport_total_ads]
    exact List.length_pos.mpr h
  · intro l hl p hp
    by_cases hu : 1 < (df.map (fun e => e.video_id)).dedup.length
    · rw [buildReport_per_video_some hu] at hl
      rcases List.mem_map.mp ((Option.some_inj.mp hl) ▸ hp) with ⟨v, hv, hpv⟩
      have hvdf : v ∈ df.map (fun e => e.video_id) :=
        List.mem_dedup.mp
          (((List.perm_insertionSort (fun a b => a.data ≤ b.data) _).mem_iff).mp
            (List.mem_of_mem_take hv))
      rcases List.mem_map.mp hvdf with ⟨e, he, hev⟩
      have hef : e ∈ df.filter (fun x => x.video_id == v) :=
        List.mem_filter.mpr ⟨he, by simp [hev]⟩
      have hlen : 0 < (df.filter (fun x => x.video_id == v)).length :=
        List.length_pos.mpr (List.ne_nil_of_mem hef)
      rw [← hpv]
      simpa using hlen
    · rw [buildReport_per_video_none hu] at hl
      exact absurd hl (by simp)

def c4df : List AdRecord :=
  [⟨"v1", "non-skippable", "pre-roll", 15, 0⟩]

/-- Claim C4 witness: the theorem applied to a concrete one-event corpus. -/
theorem aggregate_empty_corpus_witness :
    generate_summary_report [] = Except.error AggError.EmptyCorpus ∧
    generate_summary_report c4df = Except.ok (buildReport c4df) ∧
    0 < (buildReport c4df).total_ads ∧
    ∀ l, (buildReport c4df).per_video = some l → ∀ p ∈ l, 0 < p.2.1 :=
  aggregate_empty_corpus c4df (by decide)

/-- Claim C10 (confirmed).  A produced report carries a per-video breakdown
exactly when the corpus has more than one distinct `video_id`; in
particular, when all events share one `video_id` the report has no
per-video section. -/
theorem per_video_breakdown_presence (df : List AdRecord) (r : Report)
    (h : generate_summary_report df = Except.ok r) :
    (r.per_video.isSome ↔ 1 < (df.map (fun e => e.video_id)).dedup.length) ∧
    ∀ v : String, (∀ e ∈ df, e.video_id = v) → r.per_video = none := by
  have hr := ok_report_eq h
  subst hr
  constructor
  · by_cases hu : 1 < (df.map (fun e => e.video_id)).dedup.length
    · rw [buildReport_per_video_some hu]
      simpa using hu
    · rw [buildReport_per_video_none hu]
      simpa using hu
  · intro v hv
    refine buildReport_per_video_none ?_
    have hle : (df.map (fun e => e.video_id)).dedup.length ≤ 1 :=
      dedup_length_le_one (v := v) (by
        intro x hx
        rcases List.mem_map.mp hx with ⟨e, he, hev⟩
        rw [← hev]
        exact hv e he)
    omega

def c10df : List AdRecord :=
  [⟨"v1", "non-skippable", "pre-roll", 15, 0⟩,
   ⟨"v1", "skippable", "mid-roll", 30, 600⟩]

/-- Claim C10 witness: a two-event corpus sharing one `video_id` gets no
per-video section. -/
theorem per_video_breakdown_presence_witness :
    (buildReport c10df).per_video = none :=
  (per_video_breakdown_presence c10df (buildReport c10df) rfl).2 "v1" (by decide)

example :
    (buildReport [⟨"a", "skippable", "mid-roll", 15, 600⟩,
      ⟨"a", "bumper", "mid-roll", 6, 1200⟩]).per_video = none := by decide

example :
    ((buildReport [⟨"z", "skippable", "mid-roll", 15, 600⟩,
      ⟨"a", "bumper", "mid-roll", 6, 1200⟩]).per_video.getD []).map
        (fun e => e.1) = ["a", "z"] := by decide

example :
    (buildReport [⟨"a", "skippable", "mid-roll", 15, 600⟩,
      ⟨"a", "bumper", "mid-roll", 6, 1200⟩,
      ⟨"a", "display", "post-roll", 5, 1250⟩]).median_duration = 6 := by decide

/-- Corpus for C6: six events whose `video_id`s are pairwise distinct and
appear in insertion order z, a, b, c, d, e — so the map of ids *is* the
insertion-order list of distinct ids. -/
def c6df : List AdRecord :=
  [⟨"z", "non-skippable", "pre-roll", 15, 0⟩,
   ⟨"a", "non-skippable", "pre-roll", 30, 0⟩,
   ⟨"b", "skippable", "mid-roll", 30, 600⟩,
   ⟨"c", "bumper", "mid-roll", 6, 600⟩,
   ⟨"d", "non-skippable", "pre-roll", 15, 0⟩,
   ⟨"e", "display", "post-roll", 5, 900⟩]

/-- Claim C6 (counterexample).  `groupby('video_id')` sorts its keys, so the
bounded view `video_stats.index[:5]` selects the lexicographically first
five ids (a, b, c, d, e), not the first five encountered in insertion
order (z, a, b, c, d). -/
theorem top_five_not_insertion_order :
    (c6df.map (fun e => e.video_id)).Nodup ∧
    ((buildReport c6df).per_video.getD []).map (fun p => p.1)
      = ["a", "b", "c", "d", "e"] ∧
    (c6df.map (fun e => e.video_id)).take 5 = ["z", "a", "b", "c", "d"] ∧
    (["a", "b", "c", "d", "e"] : List String) ≠ ["z", "a", "b", "c", "d"] :=
  ⟨by decide, by decide, by decide, by decide⟩

/-- Claim C6 (amended).  When the per-video breakdown is bounded to five
entries, the selected `video_id`s are the first five distinct ids in
ascending lexicographic order (the sorted `groupby` index), a sorted
selection rather than insertion order; every selected id occurs in the
corpus. -/
theorem top_five_lexicographic (df : List AdRecord)
    (h : 1 < (df.map (fun e => e.video_id)).dedup.length) :
    ∃ l, (buildReport df).per_video = some l ∧
      l.map (fun p => p.1)
        = ((df.map (fun e => e.video_id)).dedup.insertionSort
            (fun a b => a.data ≤ b.data)).take 5 ∧
      List.Sorted (· ≤ ·) (l.map (fun p => p.1)) ∧
      ∀ p ∈ l, p.1 ∈ df.map (fun e => e.video_id) := by
  refine ⟨(((df.map (fun e => e.video_id)).dedup.insertionSort
      (fun a b => a.data ≤ b.data)).take 5).map
        (fun v =>
          let evs := (df.filter (fun e => e.video_id == v)).map (fun e => e.duration)
          (v, evs.length, evs.sum / evs.length, evs.sum)),
    buildReport_per_video_some h, ?_, ?_, ?_⟩
  · rw [List.map_map]
    exact List.map_id _
  · rw [List.map_map]
    have hfst : (((df.map (fun e => e.video_id)).dedup.insertionSort
        (fun a b => a.data ≤ b.data)).take 5).map
          ((fun (p : String × ℕ × ℚ × ℚ) => p.1) ∘ (fun v =>
            let evs := (df.filter (fun e => e.video_id == v)).map (fun e => e.duration)
            (v, evs.length, evs.sum / evs.length, evs.sum)))
        = ((df.map (fun e => e.video_id)).dedup.insertionSort
            (fun a b => a.data ≤ b.data)).take 5 := List.map_id _
    rw [hfst]
    have hs : List.Pairwise (fun a b => a.data ≤ b.data)
        ((df.map (fun e => e.video_id)).dedup.insertionSort
          (fun a b => a.data ≤ b.data)) :=
      List.sorted_insertionSort _ _
    exact (hs.sublist (List.take_sublist _ _)).imp
      (fun hab => String.le_iff_toList_le.mpr hab)
  · intro p hp
    rcases List.mem_map.mp hp with ⟨v, hv, hpv⟩
    rw [← hpv]
    exact List.mem_dedup.mp
      (((List.perm_insertionSort (fun a b => a.data ≤ b.data) _).mem_iff).mp
        (List.mem_of_mem_take hv))

/-- Claim C6 witness: the amended statement at the concrete corpus `c6df`. -/
theorem top_five_lexicographic_witness :
    ∃ l, (buildReport c6df).per_video = some l ∧
      l.map (fun p => p.1)
        = ((c6df.map (fun e => e.video_id)).dedup.insertionSort
            (fun a b => a.data ≤ b.data)).take 5 ∧
      List.Sorted (· ≤ ·) (l.map (fun p => p.1)) ∧
      ∀ p ∈ l, p.1 ∈ c6df.map (fun e => e.video_id) :=
  top_five_lexicographic c6df (by decide)

/-- Claim C8 (confirmed).  In every produced ad-type distribution the counts
sum to the corpus size, each percentage is `count / total * 100`, and the
percentages sum to exactly 100 (full precision; `:.1f` rounding is
presentation only). -/
theorem ad_type_distribution_sums (df : List AdRecord) (h : df ≠ []) :
    ((buildReport df).ad_type_dist.map (fun p => p.2.1)).sum
      = (buildReport df).total_ads ∧
    (∀ p ∈ (buildReport df).ad_type_dist,
      p.2.2 = (p.2.1 : ℚ) / ((buildReport df).total_ads : ℚ) * 100) ∧
    ((buildReport df).ad_type_dist.map (fun p => p.2.2)).sum = 100 := by
  have hdist : (buildReport df).ad_type_dist
      = (valueCounts (df.map (fun e => e.ad_type))).map
          (fun p => (p.1, p.2, (p.2 : ℚ) / ((df.length : ℕ) : ℚ) * 100)) := rfl
  have hN0 : ((df.length : ℕ) : ℚ) ≠ 0 := by
    simpa using fun hc => h (List.length_eq_zero.mp hc)
  refine ⟨?_, ?_, ?_⟩
  · rw [hdist, buildReport_total_ads, List.map_map]
    show ((valueCounts (df.map fun e => e.ad_type)).map (fun p => p.2)).sum
      = df.length
    unfold valueCounts
    rw [List.map_map]
    show ((df.map fun e => e.ad_type).dedup.map
        (fun v => (df.map fun e => e.ad_type).count v)).sum = df.length
    rw [List.sum_map_count_dedup_eq_length, List.length_map]
  · intro p hp
    rw [hdist] at hp
    rcases List.mem_map.mp hp with ⟨q, _, hq⟩
    rw [← hq]
    rfl
  · rw [hdist, List.map_map]
    show ((valueCounts (df.map fun e => e.ad_type)).map
      (fun q => (q.2 : ℚ) / ((df.length : ℕ) : ℚ) * 100)).sum = 100
    unfold valueCounts
    rw [List.map_map]
    show ((df.map fun e => e.ad_type).dedup.map
      (fun v => (((df.map fun e => e.ad_type).count v : ℕ) : ℚ)
        / ((df.length : ℕ) : ℚ) * 100)).sum = 100
    have hrw : ((df.map fun e => e.ad_type).dedup.map
        (fun v => (((df.map fun e => e.ad_type).count v : ℕ) : ℚ)
          / ((df.length : ℕ) : ℚ) * 100)).sum
        = ((df.map fun e => e.ad_type).dedup.map
            (fun v => (((df.map fun e => e.ad_type).count v : ℕ) : ℚ)
              * (100 / ((df.length : ℕ) : ℚ)))).sum := by
      refine congrArg List.sum (List.map_congr_left ?_)
      intro v _
      ring
    rw [hrw, List.sum_map_mul_right]
    have hcast : ((df.map fun e => e.ad_type).dedup.map
        (fun v => (((df.map fun e => e.ad_type).count v : ℕ) : ℚ))).sum
        = ((df.length : ℕ) : ℚ) := by
      rw [show ((df.map fun e => e.ad_type).dedup.map
          (fun v => (((df.map fun e => e.ad_type).count v : ℕ) : ℚ)))
          = ((df.map fun e => e.ad_type).dedup.map
              (fun v => (df.map fun e => e.ad_type).count v)).map
                (fun n => ((n : ℕ) : ℚ)) from (List.map_map _ _ _).symm]
      rw [← Nat.cast_list_sum, List.sum_map_count_dedup_eq_length,
        List.length_map]
    rw [hcast]
    field_simp

/-- Corpus for C8: ad-type counts non-skippable = 2, skippable = 1,
bumper = 1 (total 4). -/
def c8df : List AdRecord :=
  [⟨"v1", "non-skippable", "pre-roll", 15, 0⟩,
   ⟨"v1", "non-skippable", "pre-roll", 30, 0⟩,
   ⟨"v1", "skippable", "mid-roll", 30, 600⟩,
   ⟨"v1", "bumper", "mid-roll", 6, 600⟩]

/-- Claim C8 witness: at `c8df` the counts are (2, 1, 1), the percentage
formula instantiates to 50 / 25 / 25, and the percentages sum to 100. -/
theorem ad_type_distribution_sums_witness :
    ((buildReport c8df).ad_type_dist.map (fun p => p.1))
      = ["non-skippable", "skippable", "bumper"] ∧
    ((buildReport c8df).ad_type_dist.map (fun p => p.2.1)) = [2, 1, 1] ∧
    ((2 : ℚ) / ((4 : ℕ) : ℚ) * 100 = 50 ∧ (1 : ℚ) / ((4 : ℕ) : ℚ) * 100 = 25) ∧
    (∀ p ∈ (buildReport c8df).ad_type_dist,
      p.2.2 = (p.2.1 : ℚ) / ((buildReport c8df).total_ads : ℚ) * 100) ∧
    ((buildReport c8df).ad_type_dist.map (fun p => p.2.2)).sum = 100 :=
  ⟨by decide, by decide, by norm_num,
   (ad_type_distribution_sums c8df (by decide)).2.1,
   (ad_type_distribution_sums c8df (by decide)).2.2⟩

theorem foldl_min_le (xs : List ℚ) :
    ∀ x : ℚ, xs.foldl min x ≤ x ∧ ∀ y ∈ xs, xs.foldl min x ≤ y := by
  induction xs with
  | nil =>
    intro x
    exact ⟨le_rfl, by simp⟩
  | cons a l ih =>
    intro x
    have h1 := (ih (min x a)).1
    refine ⟨le_trans h1 (min_le_left _ _), ?_⟩
    intro y hy
    rcases List.mem_cons.mp hy with rfl | hy'
    · exact le_trans h1 (min_le_right _ _)
    · exact (ih (min x a)).2 y hy'

theorem foldl_min_mem (xs : List ℚ) :
    ∀ x : ℚ, xs.foldl min x ∈ x :: xs := by
  induction xs with
  | nil =>
    intro x
    simp
  | cons a l ih =>
    intro x
    have hm := ih (min x a)
    rcases List.mem_cons.mp hm with he | he
    · rcases min_choice x a with hc | hc
      · rw [show (a :: l).foldl min x = l.foldl min (min x a) from rfl, he, hc]
        simp
      · rw [show (a :: l).foldl min x = l.foldl min (min x a) from rfl, he, hc]
        simp
    · exact List.mem_cons.mpr (Or.inr (List.mem_cons.mpr (Or.inr he)))

theorem foldl_max_ge (xs : List ℚ) :
    ∀ x : ℚ, x ≤ xs.foldl max x ∧ ∀ y ∈ xs, y ≤ xs.foldl max x := by
  induction xs with
  | nil =>
    intro x
    exact ⟨le_rfl, by simp⟩
  | cons a l ih =>
    intro x
    have h1 := (ih (max x a)).1
    refine ⟨le_trans (le_max_left _ _) h1, ?_⟩
    intro y hy
    rcases List.mem_cons.mp hy with rfl | hy'
    · exact le_trans (le_max_right _ _) h1
    · exact (ih (max x a)).2 y hy'

theorem foldl_max_mem (xs : List ℚ) :
    ∀ x : ℚ, xs.foldl max x ∈ x :: xs := by
  induction xs with
  | nil =>
    intro x
    simp
  | cons a l ih =>
    intro x
    have hm := ih (max x a)
    rcases List.mem_cons.mp hm with he | he
    · rcases max_choice x a with hc | hc
      · rw [show (a :: l).foldl max x = l.foldl max (max x a) from rfl, he, hc]
        simp
      · rw [show (a :: l).foldl max x = l.foldl max (max x a) from rfl, he, hc]
        simp
    · exact List.mem_cons.mpr (Or.inr (List.mem_cons.mpr (Or.inr he)))

/-- Claim C9 (confirmed).  Every produced report's duration statistics are the
minimum, maximum, arithmetic mean and median of the corpus's durations:
the min/max bound every duration and are themselves durations of the
corpus, the mean is `sum / count`, and the median is the central value of
the sorted durations for odd corpus size and the average of the two
central values for even size. -/
theorem duration_statistics (df : List AdRecord) (h : df ≠ []) :
    (∀ e ∈ df, (buildReport df).min_duration ≤ e.duration ∧
      e.duration ≤ (buildReport df).max_duration) ∧
    (buildReport df).min_duration ∈ df.map (fun e => e.duration) ∧
    (buildReport df).max_duration ∈ df.map (fun e => e.duration) ∧
    (buildReport df).avg_duration
      = (df.map (fun e => e.duration)).sum / ((df.length : ℕ) : ℚ) ∧
    (df.length % 2 = 1 → (buildReport df).median_duration
      = ((df.map (fun e => e.duration)).insertionSort (· ≤ ·)).getD
          (df.length / 2) 0) ∧
    (df.length % 2 = 0 → (buildReport df).median_duration
      = (((df.map (fun e => e.duration)).insertionSort (· ≤ ·)).getD
          (df.length / 2 - 1) 0 +
         ((df.map (fun e => e.duration)).insertionSort (· ≤ ·)).getD
          (df.length / 2) 0) / 2) := by
  rcases df with _ | ⟨e0, tl⟩
  · exact absurd rfl h
  have hmin : (buildReport (e0 :: tl)).min_duration
      = (tl.map (fun e => e.duration)).foldl min e0.duration := rfl
  have hmax : (buildReport (e0 :: tl)).max_duration
      = (tl.map (fun e => e.duration)).foldl max e0.duration := rfl
  have hlen : ((e0 :: tl).map (fun e => e.duration)).length
      = (e0 :: tl).length := List.length_map _ _
  refine ⟨?_, ?_, ?_, rfl, ?_, ?_⟩
  · intro e he
    rw [hmin, hmax]
    constructor
    · rcases List.mem_cons.mp he with rfl | he'
      · exact (foldl_min_le _ e.duration).1
      · exact (foldl_min_le _ e0.duration).2 e.duration
          (List.mem_map_of_mem (fun e => e.duration) he')
    · rcases List.mem_cons.mp he with rfl | he'
      · exact (foldl_max_ge _ e.duration).1
      · exact (foldl_max_ge _ e0.duration).2 e.duration
          (List.mem_map_of_mem (fun e => e.duration) he')
  · rw [hmin]
    exact foldl_min_mem (tl.map (fun e => e.duration)) e0.duration
  · rw [hmax]
    exact foldl_max_mem (tl.map (fun e => e.duration)) e0.duration
  · intro hodd
    show median ((e0 :: tl).map (fun e => e.duration)) = _
    unfold median
    rw [hlen, if_pos hodd]
  · intro heven
    show median ((e0 :: tl).map (fun e => e.duration)) = _
    unfold median
    rw [hlen, if_neg (by omega)]

/-- Corpus for C9: three events with durations 15, 30, 6. -/
def c9df : List AdRecord :=
  [⟨"v1", "non-skippable", "pre-roll", 15, 0⟩,
   ⟨"v1", "non-skippable", "pre-roll", 30, 0⟩,
   ⟨"v1", "bumper", "mid-roll", 6, 600⟩]

/-- Claim C9 witness: durations [15, 30, 6] give min 6, max 30, median 15,
and mean `(15 + 30 + 6) / 3 = 17`. -/
theorem duration_statistics_witness :
    (buildReport c9df).min_duration = 6 ∧
    (buildReport c9df).max_duration = 30 ∧
    (buildReport c9df).median_duration = 15 ∧
    (buildReport c9df).avg_duration
      = (c9df.map (fun e => e.duration)).sum / ((c9df.length : ℕ) : ℚ) ∧
    (c9df.map (fun e => e.duration)).sum / ((c9df.length : ℕ) : ℚ) = 17 :=
  ⟨by decide, by decide, by decide,
   (duration_statistics c9df (by decide)).2.2.2.1,
   by norm_num [c9df]⟩
